import Mathlib

/-!
# Verification of the Ramadan Campaign Tracker aggregation core

Shallow embedding of the filtering/aggregation/statistics module of the
repository (src/js/api.js and the filters module concatenated in
src/js/app.js) together with proofs of the specification claims.

Modelling conventions:
* Timestamps are naturals counting milliseconds; a JavaScript `Date`
  comparison `new Date(a) >= new Date(b)` becomes `b ≤ a`; the calendar
  day of a timestamp (`toISOString().split('T')[0]`, i.e. the UTC day)
  becomes integer division by `msPerDay`, and ISO day strings are
  identified with their day numbers.
* Optional JSON fields (`closed_at`, `assignee`, `labels`, …) become
  `Option`; a missing field is `none`, and JavaScript truthiness checks
  on them become `Option.isSome`.  `new Date(undefined)` is an invalid
  date whose comparisons are all false, so a comparison guarded only by
  JavaScript semantics is modelled as `false` on `none`.
* JavaScript `Map` (insertion ordered, unique keys) becomes an
  association list where a new key is appended at the end.
* The stable JavaScript `Array.prototype.sort` becomes `List.mergeSort`.
-/

set_option maxHeartbeats 1000000

namespace RamadanTracker

/-! ## Label points parser (src/js/api.js, parsePointsFromLabels) -/

/-- The separator class `[\s:-]` of the two regexes (whitespace, colon,
dash). -/
def sepChar (c : Char) : Bool :=
  c == ' ' || c == '\t' || c == '\n' || c == '\r' || c == ':' || c == '-'

/-- The point-word alternatives `points?|poins|pts`, compared
case-insensitively against an entire character run. -/
def pointWord (s : List Char) : Bool :=
  let w := s.map Char.toLower
  w == "points".data || w == "point".data || w == "poins".data || w == "pts".data

/-- The regex `/^(\d+)[\s:-]*(points?|poins|pts)?$/i`: one or more
digits, then separators, then an optional point word, to the end. -/
def matchDigitsFirst (s : List Char) : Bool :=
  let ds := s.takeWhile Char.isDigit
  let rest := (s.drop ds.length).dropWhile sepChar
  !ds.isEmpty && (rest.isEmpty || pointWord rest)

/-- Strip a lowercase literal word from the front of a character list,
comparing case-insensitively (the `i` flag of the regex; digits and
separators are case-invariant, so only the word needs folding). -/
def dropLit : List Char → List Char → Option (List Char)
  | [], rest => some rest
  | _ :: _, [] => none
  | w :: ws, c :: cs => if w == c.toLower then dropLit ws cs else none

/-- `[\s:-]*(\d+)$`: separators then one or more digits to the end. -/
def sepsThenDigits (rest : List Char) : Bool :=
  let rest2 := rest.dropWhile sepChar
  !rest2.isEmpty && rest2.all Char.isDigit

/-- The regex `/^(pts|points?|poins)[\s:-]*(\d+)$/i`: a point word, then
separators, then one or more digits, to the end. -/
def matchWordFirst (s : List Char) : Bool :=
  ["pts", "points", "point", "poins"].any fun w =>
    match dropLit w.data s with
    | some rest => sepsThenDigits rest
    | none => false

/-- A label name matches when either regex of the source matches. -/
def isPointLabel (name : String) : Bool :=
  matchDigitsFirst name.data || matchWordFirst name.data

/-- The first run of digits in a name (`name.match(/\d+/)`). -/
def firstDigitRun : List Char → List Char
  | [] => []
  | c :: cs => if c.isDigit then c :: cs.takeWhile Char.isDigit else firstDigitRun cs

/-- Base-10 value of a digit run (`parseInt(match[0], 10)`). -/
def digitsToNat (ds : List Char) : Nat :=
  ds.foldl (fun acc c => acc * 10 + (c.toNat - '0'.toNat)) 0

structure Label where
  name : String
  deriving Repr, DecidableEq

/-- `parsePointsFromLabels` from src/js/api.js.  The argument is
`Option` because the source guards `!labels`; the result is `Int`
because points later feed signed JavaScript arithmetic. -/
def parsePointsFromLabels (labels : Option (List Label)) : Int :=
  match labels with
  | none => 0
  | some ls =>
    if ls.isEmpty then 0
    else
      match ls.find? (fun l => isPointLabel l.name) with
      | none => 0
      | some l =>
        let ds := firstDigitRun l.name.data
        if ds.isEmpty then 0 else (digitsToNat ds : Int)

/-! ## Data model -/

/-- Milliseconds per UTC calendar day. -/
def msPerDay : Nat := 86400000

/-- UTC calendar day of a millisecond timestamp
(`new Date(t).toISOString().split('T')[0]`). -/
def dayOf (t : Nat) : Nat := t / msPerDay

structure Assignee where
  login : String
  avatar_url : String
  html_url : String
  deriving Repr, DecidableEq

/-- GitHub issue record as consumed by the core, with the two derived
fields (`points`, `isPR`) carried as defaulted fields. -/
structure Issue where
  number : Nat
  state : String
  created_at : Option Nat
  closed_at : Option Nat
  assignee : Option Assignee
  labels : Option (List Label)
  comments : Nat
  pull_request : Bool
  points : Int := 0
  isPR : Bool := false
  deriving Repr, DecidableEq

structure PullRequest where
  state : String
  created_at : Nat
  closed_at : Option Nat
  merged_at : Option Nat
  deriving Repr, DecidableEq

/-- The per-project stats shape shared by `stats` and `filteredStats`. -/
structure Stats where
  «open» : Nat
  closed : Nat
  assigned : Nat
  total : Nat
  points : Int
  comments : Nat
  deriving Repr, DecidableEq

structure Project where
  owner : String
  repo : String
  name : String
  order : Option Nat
  issues : List Issue
  prs : List PullRequest
  stats : Stats
  filteredIssues : Option (List Issue) := none
  filteredStats : Option Stats := none
  deriving Repr, DecidableEq

/-- The user-selected filter record (string-valued, as in the source). -/
structure Filters where
  status : String
  assignment : String
  comments : String
  points : String
  sortBy : String
  sortOrder : String
  contribSort : String
  deriving Repr, DecidableEq

def defaultFilters : Filters :=
  { status := "open", assignment := "all", comments := "all", points := "all",
    sortBy := "order", sortOrder := "asc", contribSort := "points" }

/-! ## Issue normalizer (src/js/api.js, processIssues) -/

/-- The map step of `processIssues`: attach `isPR` and `points`. -/
def processIssue (i : Issue) : Issue :=
  { i with isPR := i.pull_request, points := parsePointsFromLabels i.labels }

/-- The filter step of `processIssues`: a closed issue is kept only when
`new Date(issue.closed_at) >= thresholdDate`; an absent `closed_at`
yields an invalid date whose comparisons are false. -/
def keepIssue (thresholdDate : Nat) (i : Issue) : Bool :=
  if i.state == "closed" then
    match i.closed_at with
    | none => false
    | some t => thresholdDate ≤ t
  else true

/-- `processIssues` from src/js/api.js. -/
def processIssues (issues : List Issue) (thresholdDate : Nat) : List Issue :=
  (issues.map processIssue).filter (keepIssue thresholdDate)

/-! ## Filter engine (filters module, filterIssues / applyFilters) -/

/-- The predicate of `filterIssues`, translated clause by clause. -/
def issuePasses (f : Filters) (i : Issue) : Bool :=
  if f.status != "all" && (f.status == "open" && i.state != "open") then false
  else if f.status != "all" && (f.status == "closed" && i.state != "closed") then false
  else if f.assignment != "all" && (f.assignment == "assigned" && i.assignee.isNone) then false
  else if f.assignment != "all" && (f.assignment == "unassigned" && i.assignee.isSome) then false
  else if f.comments != "all" && (f.comments == "has-comments" && i.comments == 0) then false
  else if f.comments != "all" && (f.comments == "no-comments" && i.comments > 0) then false
  else if f.points == "has-points" && i.points == 0 then false
  else true

def filterIssues (issues : List Issue) (f : Filters) : List Issue :=
  issues.filter (issuePasses f)

/-- Sum of a point field over an issue list
(`reduce((sum, i) => sum + i.points, 0)`). -/
def sumPoints (l : List Issue) : Int :=
  l.foldl (fun s i => s + i.points) 0

/-- Sum of comment counts (`reduce((sum, i) => sum + i.comments, 0)`). -/
def sumComments (l : List Issue) : Nat :=
  l.foldl (fun s i => s + i.comments) 0

/-- The `filteredStats` record computed inside `applyFilters`. -/
def statsOf (issues : List Issue) : Stats :=
  { «open» := (issues.filter (fun i => i.state == "open")).length,
    closed := (issues.filter (fun i => i.state == "closed")).length,
    assigned := (issues.filter (fun i => i.assignee.isSome)).length,
    total := issues.length,
    points := sumPoints issues,
    comments := sumComments issues }

/-- `applyFilters` from the filters module: shallow copy-and-extend of
every project with `filteredIssues` and `filteredStats`. -/
def applyFilters (projects : List Project) (f : Filters) : List Project :=
  projects.map fun p =>
    let fi := filterIssues p.issues f
    { p with filteredIssues := some fi, filteredStats := some (statsOf fi) }

/-! ## Global stats (filters module, calculateGlobalStats) -/

/-- Closed-since-threshold test of `calculateGlobalStats`
(`state === 'closed' && closed_at && new Date(closed_at) >= new Date(T)`). -/
def isClosedSince (thresholdDate : Nat) (i : Issue) : Bool :=
  if i.state != "closed" || i.closed_at.isNone then false
  else
    match i.closed_at with
    | none => false
    | some t => thresholdDate ≤ t

structure GlobalStats where
  «open» : Nat
  withComments : Nat
  withAssignees : Nat
  closedSince : Nat
  totalPoints : Int
  collectedPoints : Int
  deriving Repr, DecidableEq

def calculateGlobalStats (projects : List Project) (thresholdDate : Nat) : GlobalStats :=
  let allIssues := projects.flatMap (·.issues)
  let openIssues := allIssues.filter (fun i => i.state == "open")
  let issuesWithComments := allIssues.filter (fun i => i.comments > 0)
  let issuesWithAssignees := allIssues.filter (fun i => i.assignee.isSome)
  let closedSinceThreshold := allIssues.filter (isClosedSince thresholdDate)
  { «open» := openIssues.length,
    withComments := issuesWithComments.length,
    withAssignees := issuesWithAssignees.length,
    closedSince := closedSinceThreshold.length,
    totalPoints := sumPoints allIssues,
    collectedPoints := sumPoints closedSinceThreshold }

/-! ## Contributor leaderboard (filters module, buildContributorLeaderboard) -/

/-- An issue recorded in a contributor bucket, extended with project
attribution (`{...issue, projectName, owner, repo}`). -/
structure AttributedIssue where
  issue : Issue
  projectName : String
  owner : String
  repo : String
  deriving Repr, DecidableEq

structure Contributor where
  username : String
  avatar_url : String
  html_url : String
  assignedIssues : List AttributedIssue
  closedIssuesWithPoints : List AttributedIssue
  totalPoints : Int
  closedCount : Nat
  assignedCount : Nat
  deriving Repr, DecidableEq

/-- The fresh bucket installed by `contributors.set(username, {...})`. -/
def freshContributor (a : Assignee) : Contributor :=
  { username := a.login, avatar_url := a.avatar_url, html_url := a.html_url,
    assignedIssues := [], closedIssuesWithPoints := [],
    totalPoints := 0, closedCount := 0, assignedCount := 0 }

/-- The in-place mutation of one contributor bucket for one assigned
issue: record the issue, bump `assignedCount`, and when the issue is
closed on or after the threshold bump `closedCount` (and points when
positive). -/
def updateContributor (T : Nat) (p : Project) (i : Issue) (c : Contributor) : Contributor :=
  let att : AttributedIssue := ⟨i, p.name, p.owner, p.repo⟩
  let c1 := { c with assignedIssues := c.assignedIssues ++ [att],
                     assignedCount := c.assignedCount + 1 }
  if i.state == "closed" then
    match i.closed_at with
    | none => c1
    | some t =>
      if T ≤ t then
        let c2 :=
          if 0 < i.points then
            { c1 with closedIssuesWithPoints := c1.closedIssuesWithPoints ++ [att],
                      totalPoints := c1.totalPoints + i.points }
          else c1
        { c2 with closedCount := c2.closedCount + 1 }
      else c1
  else c1

/-- Update every entry of an association list at one key (a JavaScript
`Map` holds each key once, so at most one entry changes). -/
def mapUpdate (m : List (String × Contributor)) (k : String)
    (f : Contributor → Contributor) : List (String × Contributor) :=
  m.map fun q => if q.1 = k then (q.1, f q.2) else q

/-- One issue step of the leaderboard accumulation: unassigned issues
are skipped; a first-seen username is appended (JavaScript `Map.set`
keeps insertion order), then its bucket is updated. -/
def addIssueToMap (T : Nat) (p : Project) (m : List (String × Contributor))
    (i : Issue) : List (String × Contributor) :=
  match i.assignee with
  | none => m
  | some a =>
    let m1 := if (m.lookup a.login).isSome then m
              else m ++ [(a.login, freshContributor a)]
    mapUpdate m1 a.login (updateContributor T p i)

/-- The contributors `Map` after the double `forEach`. -/
def contributorsMap (projects : List Project) (T : Nat) : List (String × Contributor) :=
  projects.foldl (fun m p => p.issues.foldl (addIssueToMap T p) m) []

/-- `Array.from(contributors.values())`: bucket list in encounter
order. -/
def contributorEntries (projects : List Project) (T : Nat) : List Contributor :=
  (contributorsMap projects T).map Prod.snd

/-- The numeric key sorted on for a given `sortBy` value. -/
def contribKey (sortBy : String) (c : Contributor) : Int :=
  if sortBy == "points" then c.totalPoints
  else if sortBy == "closed" then (c.closedCount : Int)
  else (c.assignedCount : Int)

/-- `buildContributorLeaderboard` from the filters module.  The three
`sort` calls use JavaScript's stable sort with comparator
`(a, b) => key(b) - key(a)`, modelled by a stable `mergeSort` with
`le a b := key b ≤ key a`; an unrecognized `sortBy` leaves the array
unsorted (the `switch` has no default case). -/
def buildContributorLeaderboard (projects : List Project) (T : Nat)
    (sortBy : String) : List Contributor :=
  let leaderboard := contributorEntries projects T
  if sortBy == "points" then
    leaderboard.mergeSort fun a b => decide (b.totalPoints ≤ a.totalPoints)
  else if sortBy == "closed" then
    leaderboard.mergeSort fun a b => decide (b.closedCount ≤ a.closedCount)
  else if sortBy == "assigned" then
    leaderboard.mergeSort fun a b => decide (b.assignedCount ≤ a.assignedCount)
  else leaderboard

/-! ## Daily activity counts (filters module, calculateDailyCounts) -/

/-- The four dense day → count maps, as insertion-ordered association
lists keyed by day number. -/
structure DailyData where
  assigned : List (Nat × Nat)
  closed : List (Nat × Nat)
  merged_prs : List (Nat × Nat)
  open_prs : List (Nat × Nat)
  deriving Repr, DecidableEq

/-- `if (data.x[dateStr] !== undefined) data.x[dateStr]++`: increment an
existing key, ignore a missing one. -/
def bump (m : List (Nat × Nat)) (k : Nat) : List (Nat × Nat) :=
  m.map fun q => if q.1 = k then (q.1, q.2 + 1) else q

/-- The initialization loop: every day of `[startDay, endDay]` mapped
to 0. -/
def initDaily (startDay endDay : Nat) : List (Nat × Nat) :=
  (List.range' startDay (endDay + 1 - startDay)).map (fun d => (d, 0))

/-- Per-issue step: count creation day under `assigned`, and for closed
issues the closing day under `closed`. -/
def stepIssue (d : DailyData) (i : Issue) : DailyData :=
  let d1 :=
    match i.created_at with
    | some t => { d with assigned := bump d.assigned (dayOf t) }
    | none => d
  if i.state == "closed" then
    match i.closed_at with
    | none => d1
    | some t => { d1 with closed := bump d1.closed (dayOf t) }
  else d1

/-- Per-PR step: a closed PR with a closing timestamp counts under
`merged_prs` on its closing day, otherwise an open PR counts under
`open_prs` on its creation day. -/
def stepPR (d : DailyData) (pr : PullRequest) : DailyData :=
  if pr.state == "closed" && pr.closed_at.isSome then
    match pr.closed_at with
    | none => d
    | some t => { d with merged_prs := bump d.merged_prs (dayOf t) }
  else if pr.state == "open" then
    { d with open_prs := bump d.open_prs (dayOf pr.created_at) }
  else d

def stepProject (d : DailyData) (p : Project) : DailyData :=
  p.prs.foldl stepPR (p.issues.foldl stepIssue d)

/-- `calculateDailyCounts` from the filters module, with the date-range
endpoints already parsed to day numbers. -/
def calculateDailyCounts (projects : List Project) (startDay endDay : Nat) : DailyData :=
  let init : DailyData :=
    ⟨initDaily startDay endDay, initDaily startDay endDay,
     initDaily startDay endDay, initDaily startDay endDay⟩
  projects.foldl stepProject init

/-! ## Parser lemmas and claims C1, C2 -/

theorem firstDigitRun_ne_nil {s : List Char} (h : ∃ c ∈ s, c.isDigit) :
    firstDigitRun s ≠ [] := by
  induction s with
  | nil => simp at h
  | cons c cs ih =>
    by_cases hc : c.isDigit
    · simp [firstDigitRun, hc]
    · obtain ⟨d, hd, hdig⟩ := h
      rcases List.mem_cons.mp hd with rfl | hd
      · exact absurd hdig hc
      · simpa [firstDigitRun, hc] using ih ⟨d, hd, hdig⟩

theorem mem_of_dropLit {w s rest : List Char} (h : dropLit w s = some rest) :
    ∀ c ∈ rest, c ∈ s := by
  induction w generalizing s with
  | nil =>
    simp only [dropLit, Option.some.injEq] at h
    subst h; exact fun c hc => hc
  | cons w0 ws ih =>
    match s with
    | [] => simp [dropLit] at h
    | c0 :: cs =>
      simp only [dropLit] at h
      split at h
      · exact fun c hc => List.mem_cons_of_mem c0 (ih h c hc)
      · exact absurd h (by simp)

theorem exists_digit_of_sepsThenDigits {rest : List Char}
    (h : sepsThenDigits rest = true) : ∃ c ∈ rest, c.isDigit := by
  simp only [sepsThenDigits, Bool.and_eq_true, Bool.not_eq_true',
    List.isEmpty_eq_false, List.all_eq_true] at h
  obtain ⟨hne, hall⟩ := h
  obtain ⟨c, hc⟩ := List.exists_mem_of_ne_nil _ hne
  exact ⟨c, (List.dropWhile_sublist sepChar).subset hc, hall c hc⟩

/-- A label name matched by either regex contains a digit, so the digit
extraction step of the parser cannot come up empty. -/
theorem point_label_has_digit {name : String} (h : isPointLabel name = true) :
    firstDigitRun name.data ≠ [] := by
  apply firstDigitRun_ne_nil
  rcases Bool.or_eq_true_iff.mp h with hA | hB
  · simp only [matchDigitsFirst, Bool.and_eq_true, Bool.not_eq_true',
      List.isEmpty_eq_false] at hA
    obtain ⟨c, hc⟩ := List.exists_mem_of_ne_nil _ hA.1
    exact ⟨c, (List.takeWhile_sublist Char.isDigit).subset hc,
      List.mem_takeWhile_imp hc⟩
  · simp only [matchWordFirst, List.any_eq_true] at hB
    obtain ⟨w, -, hw⟩ := hB
    revert hw
    match hdrop : dropLit w.data name.data with
    | none => simp
    | some rest =>
      intro hw
      obtain ⟨c, hc, hdig⟩ := exists_digit_of_sepsThenDigits hw
      exact ⟨c, mem_of_dropLit hdrop c hc, hdig⟩

/-- C1: for every label list, the points parser returns the value of the
first label matching either regex pattern, parsing the first run of
digits of that label's name in base 10; in particular
`points [\x7bname:"100 points"\x7d] = 100`, `points [\x7bname:"pts-50"\x7d] = 50`,
`points [\x7bname:"bug"\x7d] = 0`, and
`points [\x7bname:"points:7"\x7d, \x7bname:"5 pts"\x7d] = 7` (first match wins). -/
theorem points_first_matching_label :
    (∀ (ls : List Label) (l : Label),
        ls.find? (fun x => isPointLabel x.name) = some l →
        parsePointsFromLabels (some ls) = (digitsToNat (firstDigitRun l.name.data) : Int)) ∧
    parsePointsFromLabels (some [⟨"100 points"⟩]) = 100 ∧
    parsePointsFromLabels (some [⟨"pts-50"⟩]) = 50 ∧
    parsePointsFromLabels (some [⟨"bug"⟩]) = 0 ∧
    parsePointsFromLabels (some [⟨"points:7"⟩, ⟨"5 pts"⟩]) = 7 := by
  refine ⟨?_, by decide, by decide, by decide, by decide⟩
  intro ls l h
  have hne : ls ≠ [] := by rintro rfl; simp at h
  have hp : isPointLabel l.name = true := by simpa using List.find?_some h
  have hds := point_label_has_digit hp
  simp [parsePointsFromLabels, List.isEmpty_iff, hne, h, hds]

theorem points_first_matching_label_witness :
    parsePointsFromLabels (some [⟨"points:7"⟩, ⟨"5 pts"⟩]) =
      (digitsToNat (firstDigitRun "points:7".data) : Int) :=
  points_first_matching_label.1 [⟨"points:7"⟩, ⟨"5 pts"⟩] ⟨"points:7"⟩ (by decide)

/-- C2: the points parser is total and non-negative; an absent label
array yields 0, and a label set with no matching name yields 0. -/
theorem points_nonneg_default_zero :
    parsePointsFromLabels none = 0 ∧
    (∀ ls : Option (List Label), 0 ≤ parsePointsFromLabels ls) ∧
    (∀ ls : List Label, (∀ l ∈ ls, isPointLabel l.name = false) →
      parsePointsFromLabels (some ls) = 0) := by
  refine ⟨rfl, ?_, ?_⟩
  · intro ls
    match ls with
    | none => exact le_refl 0
    | some ls =>
      simp only [parsePointsFromLabels]
      split
      · exact le_refl 0
      · split
        · exact le_refl 0
        · split
          · exact le_refl 0
          · exact Int.natCast_nonneg _
  · intro ls h
    have : ls.find? (fun l => isPointLabel l.name) = none :=
      List.find?_eq_none.mpr (by simpa using h)
    simp [parsePointsFromLabels, this]

theorem points_nonneg_default_zero_witness :
    parsePointsFromLabels (some [⟨"bug"⟩]) = 0 :=
  points_nonneg_default_zero.2.2 [⟨"bug"⟩] (by decide)

/-! ## Claim C3: normalizer retention -/

/-- C3: the normalizer keeps every open issue, and every retained closed
issue has a closing timestamp on or after the threshold date (closed
issues closed earlier, or with no closing timestamp, are dropped). -/
theorem processIssues_retention (issues : List Issue) (T : Nat) :
    (∀ i ∈ issues, i.state = "open" → processIssue i ∈ processIssues issues T) ∧
    (∀ j ∈ processIssues issues T, j.state = "closed" →
      ∃ t, j.closed_at = some t ∧ T ≤ t) := by
  constructor
  · intro i hi hopen
    apply List.mem_filter.mpr
    refine ⟨List.mem_map_of_mem _ hi, ?_⟩
    simp [keepIssue, processIssue, hopen]
  · intro j hj hclosed
    have hk : keepIssue T j = true := (List.mem_filter.mp hj).2
    simp only [keepIssue, hclosed] at hk
    match ht : j.closed_at with
    | none => rw [ht] at hk; simp at hk
    | some t => rw [ht] at hk; exact ⟨t, rfl, by simpa using hk⟩

theorem processIssues_retention_witness :
    processIssue ⟨1, "open", some 5, none, none, none, 0, false, 0, false⟩ ∈
      processIssues [⟨1, "open", some 5, none, none, none, 0, false, 0, false⟩] 3 :=
  (processIssues_retention _ 3).1 _ (by simp) rfl

/-! ## Claim C10: filter application is idempotent and non-mutating -/

/-- C10: applying the same filters twice yields the same
`filteredIssues`/`filteredStats` as applying them once, and the
underlying project data (owner, repo, name, order, issues, prs, stats)
is passed through unchanged. -/
theorem applyFilters_idempotent (projects : List Project) (f : Filters) :
    applyFilters (applyFilters projects f) f = applyFilters projects f ∧
    (applyFilters projects f).map
        (fun p => (p.owner, p.repo, p.name, p.order, p.issues, p.prs, p.stats)) =
      projects.map
        (fun p => (p.owner, p.repo, p.name, p.order, p.issues, p.prs, p.stats)) := by
  constructor
  · simp only [applyFilters, List.map_map]
    apply List.map_congr_left
    intro p _
    rfl
  · simp only [applyFilters, List.map_map]
    apply List.map_congr_left
    intro p _
    rfl

/-! ## Claim C4: collected points never exceed total points -/

theorem foldl_add_points (l : List Issue) (s : Int) :
    l.foldl (fun s i => s + i.points) s = s + (l.map (·.points)).sum := by
  induction l generalizing s with
  | nil => simp
  | cons i is ih => simp [ih, add_assoc]

theorem sumPoints_eq (l : List Issue) : sumPoints l = (l.map (·.points)).sum := by
  simpa using foldl_add_points l 0

/-- C4: when every issue carries non-negative points, the global
collected points (sum over closed-since-threshold issues) never exceed
the global total points (sum over all issues). -/
theorem globalStats_collected_le_total (projects : List Project) (T : Nat)
    (h : ∀ p ∈ projects, ∀ i ∈ p.issues, 0 ≤ i.points) :
    (calculateGlobalStats projects T).collectedPoints ≤
      (calculateGlobalStats projects T).totalPoints := by
  simp only [calculateGlobalStats]
  rw [sumPoints_eq, sumPoints_eq]
  apply List.Sublist.sum_le_sum
  · exact (List.filter_sublist _).map _
  · intro a ha
    obtain ⟨i, hi, rfl⟩ := List.mem_map.mp ha
    obtain ⟨p, hp, hip⟩ := List.mem_flatMap.mp hi
    exact h p hp i hip

theorem globalStats_collected_le_total_witness :
    (calculateGlobalStats
        [⟨"o", "r", "n", none,
          [⟨1, "closed", some 1, some 5, none, none, 0, false, 2, false⟩], [],
          ⟨0, 0, 0, 0, 0, 0⟩, none, none⟩] 3).collectedPoints ≤
      (calculateGlobalStats
        [⟨"o", "r", "n", none,
          [⟨1, "closed", some 1, some 5, none, none, 0, false, 2, false⟩], [],
          ⟨0, 0, 0, 0, 0, 0⟩, none, none⟩] 3).totalPoints :=
  globalStats_collected_le_total _ 3 (by decide)

/-! ## Daily-counts lemmas (claims C8, C9) -/

theorem bump_keys (m : List (Nat × Nat)) (k : Nat) :
    (bump m k).map Prod.fst = m.map Prod.fst := by
  rw [bump, List.map_map]
  apply List.map_congr_left
  intro q _
  by_cases h : q.1 = k <;> simp [h]

theorem foldl_bump_keys (ks : List Nat) (m : List (Nat × Nat)) :
    (List.foldl bump m ks).map Prod.fst = m.map Prod.fst := by
  induction ks generalizing m with
  | nil => rfl
  | cons k ks ih => rw [List.foldl_cons, ih, bump_keys]

theorem initDaily_keys (D0 D1 : Nat) :
    (initDaily D0 D1).map Prod.fst = List.range' D0 (D1 + 1 - D0) := by
  simp [initDaily, List.map_map, Function.comp_def]

theorem lookup_bump (m : List (Nat × Nat)) (k d : Nat) :
    (bump m k).lookup d = (m.lookup d).map (fun v => if d = k then v + 1 else v) := by
  induction m with
  | nil => rfl
  | cons q rest ih =>
    obtain ⟨a, b⟩ := q
    by_cases hak : a = k
    · subst hak
      by_cases hda : d = a
      · subst hda
        have hb : (d == d) = true := beq_self_eq_true d
        simp [bump, List.lookup_cons, hb]
      · have hb : (d == a) = false := beq_eq_false_iff_ne.mpr hda
        simp [bump, List.lookup_cons, hb]
        exact ih
    · by_cases hda : d = a
      · subst hda
        have hb : (d == d) = true := beq_self_eq_true d
        simp [bump, List.lookup_cons, hb, hak]
      · have hb : (d == a) = false := beq_eq_false_iff_ne.mpr hda
        simp [bump, List.lookup_cons, hb, hak]
        exact ih

theorem lookup_foldl_bump (ks : List Nat) (m : List (Nat × Nat)) (d : Nat) :
    (List.foldl bump m ks).lookup d = (m.lookup d).map (· + ks.count d) := by
  induction ks generalizing m with
  | nil => simp
  | cons k ks ih =>
    rw [List.foldl_cons, ih, lookup_bump, Option.map_map]
    cases m.lookup d with
    | none => rfl
    | some v =>
      by_cases hdk : d = k
      · subst hdk
        simp [List.count_cons, Function.comp]
        omega
      · simp [List.count_cons, hdk, Function.comp, Ne.symm hdk]

theorem lookup_pairs_zero (ks : List Nat) (d : Nat) :
    (ks.map (fun k => (k, (0 : Nat)))).lookup d = if d ∈ ks then some 0 else none := by
  induction ks with
  | nil => rfl
  | cons k ks ih =>
    by_cases hdk : d = k
    · subst hdk
      have hb : (d == d) = true := beq_self_eq_true d
      simp [List.lookup_cons, hb]
    · have hb : (d == k) = false := beq_eq_false_iff_ne.mpr hdk
      simp [List.lookup_cons, hb, hdk, ih]

theorem lookup_initDaily (D0 D1 d : Nat) :
    (initDaily D0 D1).lookup d = if D0 ≤ d ∧ d ≤ D1 then some 0 else none := by
  rw [initDaily, lookup_pairs_zero]
  have h : d ∈ List.range' D0 (D1 + 1 - D0) ↔ (D0 ≤ d ∧ d ≤ D1) := by
    rw [List.mem_range'_1]
    omega
  simp only [h]

/-- Creation days recorded under `assigned` by the issue loop. -/
def assignedDays (issues : List Issue) : List Nat :=
  issues.filterMap fun i => i.created_at.map dayOf

/-- Closing days recorded under `closed` by the issue loop. -/
def closedDays (issues : List Issue) : List Nat :=
  issues.filterMap fun i =>
    if i.state == "closed" then i.closed_at.map dayOf else none

/-- Closing days recorded under `merged_prs` by the PR loop. -/
def mergedDays (prs : List PullRequest) : List Nat :=
  prs.filterMap fun pr =>
    if pr.state == "closed" then pr.closed_at.map dayOf else none

/-- Creation days recorded under `open_prs` by the PR loop. -/
def openPRDays (prs : List PullRequest) : List Nat :=
  prs.filterMap fun pr =>
    if pr.state == "closed" && pr.closed_at.isSome then none
    else if pr.state == "open" then some (dayOf pr.created_at) else none

theorem stepIssue_assigned (d : DailyData) (i : Issue) :
    (stepIssue d i).assigned =
      match i.created_at with
      | some t => bump d.assigned (dayOf t)
      | none => d.assigned := by
  unfold stepIssue
  cases i.created_at <;> cases h : i.state == "closed" <;>
    cases i.closed_at <;> simp [h]

theorem stepIssue_closed (d : DailyData) (i : Issue) :
    (stepIssue d i).closed =
      (if i.state == "closed" then
        match i.closed_at with
        | some t => bump d.closed (dayOf t)
        | none => d.closed
      else d.closed) := by
  unfold stepIssue
  cases i.created_at <;> cases h : i.state == "closed" <;>
    cases i.closed_at <;> simp [h]

theorem stepIssue_merged (d : DailyData) (i : Issue) :
    (stepIssue d i).merged_prs = d.merged_prs := by
  unfold stepIssue
  cases i.created_at <;> cases h : i.state == "closed" <;>
    cases i.closed_at <;> simp [h]

theorem stepIssue_openprs (d : DailyData) (i : Issue) :
    (stepIssue d i).open_prs = d.open_prs := by
  unfold stepIssue
  cases i.created_at <;> cases h : i.state == "closed" <;>
    cases i.closed_at <;> simp [h]

theorem stepPR_assigned (d : DailyData) (pr : PullRequest) :
    (stepPR d pr).assigned = d.assigned := by
  unfold stepPR
  cases hs : pr.state == "closed" <;> cases hc : pr.closed_at <;>
    cases ho : pr.state == "open" <;> simp [hs, hc, ho]

theorem stepPR_closed (d : DailyData) (pr : PullRequest) :
    (stepPR d pr).closed = d.closed := by
  unfold stepPR
  cases hs : pr.state == "closed" <;> cases hc : pr.closed_at <;>
    cases ho : pr.state == "open" <;> simp [hs, hc, ho]

theorem stepPR_merged (d : DailyData) (pr : PullRequest) :
    (stepPR d pr).merged_prs =
      (if pr.state == "closed" then
        match pr.closed_at with
        | some t => bump d.merged_prs (dayOf t)
        | none => d.merged_prs
      else d.merged_prs) := by
  unfold stepPR
  cases hs : pr.state == "closed" <;> cases hc : pr.closed_at <;>
    cases ho : pr.state == "open" <;> simp [hs, hc, ho]

theorem stepPR_openprs (d : DailyData) (pr : PullRequest) :
    (stepPR d pr).open_prs =
      (if pr.state == "closed" && pr.closed_at.isSome then d.open_prs
       else if pr.state == "open" then bump d.open_prs (dayOf pr.created_at)
       else d.open_prs) := by
  unfold stepPR
  cases hs : pr.state == "closed" <;> cases hc : pr.closed_at <;>
    cases ho : pr.state == "open" <;> simp [hs, hc, ho]

theorem foldIssues_assigned (issues : List Issue) (d : DailyData) :
    (issues.foldl stepIssue d).assigned =
      List.foldl bump d.assigned (assignedDays issues) := by
  induction issues generalizing d with
  | nil => rfl
  | cons i is ih =>
    rw [List.foldl_cons, ih, stepIssue_assigned]
    cases hc : i.created_at <;> simp [assignedDays, List.filterMap_cons, hc]

theorem foldIssues_closed (issues : List Issue) (d : DailyData) :
    (issues.foldl stepIssue d).closed =
      List.foldl bump d.closed (closedDays issues) := by
  induction issues generalizing d with
  | nil => rfl
  | cons i is ih =>
    rw [List.foldl_cons, ih, stepIssue_closed]
    cases hs : i.state == "closed" <;> cases hc : i.closed_at
    · simp [closedDays, List.filterMap_cons, hs, hc, ne_of_beq_false hs]
    · simp [closedDays, List.filterMap_cons, hs, hc, ne_of_beq_false hs]
    · simp [closedDays, List.filterMap_cons, hs, hc, eq_of_beq hs]
    · simp [closedDays, List.filterMap_cons, hs, hc, eq_of_beq hs]

theorem foldIssues_merged (issues : List Issue) (d : DailyData) :
    (issues.foldl stepIssue d).merged_prs = d.merged_prs := by
  induction issues generalizing d with
  | nil => rfl
  | cons i is ih => rw [List.foldl_cons, ih, stepIssue_merged]

theorem foldIssues_openprs (issues : List Issue) (d : DailyData) :
    (issues.foldl stepIssue d).open_prs = d.open_prs := by
  induction issues generalizing d with
  | nil => rfl
  | cons i is ih => rw [List.foldl_cons, ih, stepIssue_openprs]

theorem foldPRs_assigned (prs : List PullRequest) (d : DailyData) :
    (prs.foldl stepPR d).assigned = d.assigned := by
  induction prs generalizing d with
  | nil => rfl
  | cons pr rest ih => rw [List.foldl_cons, ih, stepPR_assigned]

theorem foldPRs_closed (prs : List PullRequest) (d : DailyData) :
    (prs.foldl stepPR d).closed = d.closed := by
  induction prs generalizing d with
  | nil => rfl
  | cons pr rest ih => rw [List.foldl_cons, ih, stepPR_closed]

theorem foldPRs_merged (prs : List PullRequest) (d : DailyData) :
    (prs.foldl stepPR d).merged_prs =
      List.foldl bump d.merged_prs (mergedDays prs) := by
  induction prs generalizing d with
  | nil => rfl
  | cons pr rest ih =>
    rw [List.foldl_cons, ih, stepPR_merged]
    cases hs : pr.state == "closed" <;> cases hc : pr.closed_at
    · simp [mergedDays, List.filterMap_cons, hs, hc, ne_of_beq_false hs]
    · simp [mergedDays, List.filterMap_cons, hs, hc, ne_of_beq_false hs]
    · simp [mergedDays, List.filterMap_cons, hs, hc, eq_of_beq hs]
    · simp [mergedDays, List.filterMap_cons, hs, hc, eq_of_beq hs]

theorem foldPRs_openprs (prs : List PullRequest) (d : DailyData) :
    (prs.foldl stepPR d).open_prs =
      List.foldl bump d.open_prs (openPRDays prs) := by
  induction prs generalizing d with
  | nil => rfl
  | cons pr rest ih =>
    rw [List.foldl_cons, ih, stepPR_openprs]
    cases hs : pr.state == "closed" <;> cases hc : pr.closed_at <;>
      cases ho : pr.state == "open"
    · simp [openPRDays, List.filterMap_cons, hc, ne_of_beq_false hs, ne_of_beq_false ho]
    · simp [openPRDays, List.filterMap_cons, hc, ne_of_beq_false hs, eq_of_beq ho]
    · simp [openPRDays, List.filterMap_cons, hc, ne_of_beq_false hs, ne_of_beq_false ho]
    · simp [openPRDays, List.filterMap_cons, hc, ne_of_beq_false hs, eq_of_beq ho]
    · simp [openPRDays, List.filterMap_cons, hc, eq_of_beq hs, ne_of_beq_false ho]
    · exact absurd ((eq_of_beq hs).symm.trans (eq_of_beq ho)) (by decide)
    · simp [openPRDays, List.filterMap_cons, hc, eq_of_beq hs, ne_of_beq_false ho]
    · exact absurd ((eq_of_beq hs).symm.trans (eq_of_beq ho)) (by decide)

/-- Creation days feeding `assigned`, across all projects. -/
def allAssignedDays (projects : List Project) : List Nat :=
  projects.flatMap fun p => assignedDays p.issues

/-- Closing days feeding `closed`, across all projects. -/
def allClosedDays (projects : List Project) : List Nat :=
  projects.flatMap fun p => closedDays p.issues

/-- Closing days feeding `merged_prs`, across all projects. -/
def allMergedDays (projects : List Project) : List Nat :=
  projects.flatMap fun p => mergedDays p.prs

/-- Creation days feeding `open_prs`, across all projects. -/
def allOpenPRDays (projects : List Project) : List Nat :=
  projects.flatMap fun p => openPRDays p.prs

theorem foldProjects_assigned (projects : List Project) (d : DailyData) :
    (projects.foldl stepProject d).assigned =
      List.foldl bump d.assigned (allAssignedDays projects) := by
  induction projects generalizing d with
  | nil => rfl
  | cons p ps ih =>
    rw [List.foldl_cons, ih]
    simp only [allAssignedDays, List.flatMap_cons, List.foldl_append]
    rw [stepProject, foldPRs_assigned, foldIssues_assigned]

theorem foldProjects_closed (projects : List Project) (d : DailyData) :
    (projects.foldl stepProject d).closed =
      List.foldl bump d.closed (allClosedDays projects) := by
  induction projects generalizing d with
  | nil => rfl
  | cons p ps ih =>
    rw [List.foldl_cons, ih]
    simp only [allClosedDays, List.flatMap_cons, List.foldl_append]
    rw [stepProject, foldPRs_closed, foldIssues_closed]

theorem foldProjects_merged (projects : List Project) (d : DailyData) :
    (projects.foldl stepProject d).merged_prs =
      List.foldl bump d.merged_prs (allMergedDays projects) := by
  induction projects generalizing d with
  | nil => rfl
  | cons p ps ih =>
    rw [List.foldl_cons, ih]
    simp only [allMergedDays, List.flatMap_cons, List.foldl_append]
    rw [stepProject, foldPRs_merged, foldIssues_merged]

theorem foldProjects_openprs (projects : List Project) (d : DailyData) :
    (projects.foldl stepProject d).open_prs =
      List.foldl bump d.open_prs (allOpenPRDays projects) := by
  induction projects generalizing d with
  | nil => rfl
  | cons p ps ih =>
    rw [List.foldl_cons, ih]
    simp only [allOpenPRDays, List.flatMap_cons, List.foldl_append]
    rw [stepProject, foldPRs_openprs, foldIssues_openprs]

theorem dailyCounts_assigned_lookup (projects : List Project) (D0 D1 d : Nat) :
    (calculateDailyCounts projects D0 D1).assigned.lookup d =
      if D0 ≤ d ∧ d ≤ D1 then some ((allAssignedDays projects).count d) else none := by
  simp only [calculateDailyCounts]
  rw [foldProjects_assigned, lookup_foldl_bump, lookup_initDaily]
  by_cases h : D0 ≤ d ∧ d ≤ D1 <;> simp [h]

theorem dailyCounts_closed_lookup (projects : List Project) (D0 D1 d : Nat) :
    (calculateDailyCounts projects D0 D1).closed.lookup d =
      if D0 ≤ d ∧ d ≤ D1 then some ((allClosedDays projects).count d) else none := by
  simp only [calculateDailyCounts]
  rw [foldProjects_closed, lookup_foldl_bump, lookup_initDaily]
  by_cases h : D0 ≤ d ∧ d ≤ D1 <;> simp [h]

theorem dailyCounts_merged_lookup (projects : List Project) (D0 D1 d : Nat) :
    (calculateDailyCounts projects D0 D1).merged_prs.lookup d =
      if D0 ≤ d ∧ d ≤ D1 then some ((allMergedDays projects).count d) else none := by
  simp only [calculateDailyCounts]
  rw [foldProjects_merged, lookup_foldl_bump, lookup_initDaily]
  by_cases h : D0 ≤ d ∧ d ≤ D1 <;> simp [h]

theorem dailyCounts_openprs_lookup (projects : List Project) (D0 D1 d : Nat) :
    (calculateDailyCounts projects D0 D1).open_prs.lookup d =
      if D0 ≤ d ∧ d ≤ D1 then some ((allOpenPRDays projects).count d) else none := by
  simp only [calculateDailyCounts]
  rw [foldProjects_openprs, lookup_foldl_bump, lookup_initDaily]
  by_cases h : D0 ≤ d ∧ d ≤ D1 <;> simp [h]

theorem dailyCounts_assigned_keys (projects : List Project) (D0 D1 : Nat) :
    (calculateDailyCounts projects D0 D1).assigned.map Prod.fst =
      List.range' D0 (D1 + 1 - D0) := by
  simp only [calculateDailyCounts]
  rw [foldProjects_assigned, foldl_bump_keys]
  exact initDaily_keys D0 D1

theorem dailyCounts_closed_keys (projects : List Project) (D0 D1 : Nat) :
    (calculateDailyCounts projects D0 D1).closed.map Prod.fst =
      List.range' D0 (D1 + 1 - D0) := by
  simp only [calculateDailyCounts]
  rw [foldProjects_closed, foldl_bump_keys]
  exact initDaily_keys D0 D1

theorem dailyCounts_merged_keys (projects : List Project) (D0 D1 : Nat) :
    (calculateDailyCounts projects D0 D1).merged_prs.map Prod.fst =
      List.range' D0 (D1 + 1 - D0) := by
  simp only [calculateDailyCounts]
  rw [foldProjects_merged, foldl_bump_keys]
  exact initDaily_keys D0 D1

theorem dailyCounts_openprs_keys (projects : List Project) (D0 D1 : Nat) :
    (calculateDailyCounts projects D0 D1).open_prs.map Prod.fst =
      List.range' D0 (D1 + 1 - D0) := by
  simp only [calculateDailyCounts]
  rw [foldProjects_openprs, foldl_bump_keys]
  exact initDaily_keys D0 D1

/-- C8: each of the four daily maps has exactly the days of `[D0, D1]`
as its keys (dense, no key outside the range), and each in-range day
holds exactly the number of . events falling on that day while events
dated outside the range appear under no key at all. -/
theorem dailyCounts_dense_range (projects : List Project) (D0 D1 : Nat) :
    ((calculateDailyCounts projects D0 D1).assigned.map Prod.fst =
        List.range' D0 (D1 + 1 - D0) ∧
      (calculateDailyCounts projects D0 D1).closed.map Prod.fst =
        List.range' D0 (D1 + 1 - D0) ∧
      (calculateDailyCounts projects D0 D1).merged_prs.map Prod.fst =
        List.range' D0 (D1 + 1 - D0) ∧
      (calculateDailyCounts projects D0 D1).open_prs.map Prod.fst =
        List.range' D0 (D1 + 1 - D0)) ∧
    ∀ d : Nat,
      (calculateDailyCounts projects D0 D1).assigned.lookup d =
          (if D0 ≤ d ∧ d ≤ D1 then some ((allAssignedDays projects).count d) else none) ∧
      (calculateDailyCounts projects D0 D1).closed.lookup d =
          (if D0 ≤ d ∧ d ≤ D1 then some ((allClosedDays projects).count d) else none) ∧
      (calculateDailyCounts projects D0 D1).merged_prs.lookup d =
          (if D0 ≤ d ∧ d ≤ D1 then some ((allMergedDays projects).count d) else none) ∧
      (calculateDailyCounts projects D0 D1).open_prs.lookup d =
          (if D0 ≤ d ∧ d ≤ D1 then some ((allOpenPRDays projects).count d) else none) :=
  ⟨⟨dailyCounts_assigned_keys projects D0 D1, dailyCounts_closed_keys projects D0 D1,
    dailyCounts_merged_keys projects D0 D1, dailyCounts_openprs_keys projects D0 D1⟩,
   fun d =>
    ⟨dailyCounts_assigned_lookup projects D0 D1 d,
     dailyCounts_closed_lookup projects D0 D1 d,
     dailyCounts_merged_lookup projects D0 D1 d,
     dailyCounts_openprs_lookup projects D0 D1 d⟩⟩

theorem allMergedDays_eq_filterMap (projects : List Project) :
    allMergedDays projects =
      (projects.flatMap (·.prs)).filterMap fun pr =>
        if pr.state == "closed" then pr.closed_at.map dayOf else none := by
  induction projects with
  | nil => rfl
  | cons p ps ih =>
    simp only [allMergedDays, List.flatMap_cons, List.filterMap_append] at ih ⊢
    rw [ih]
    rfl

/-- C9: inside the range, the `merged_prs` bucket of a day holds the
number of pull requests that are closed with a closing timestamp on
that day — any closed PR counts, whether or not it carries a merge
timestamp. -/
theorem merged_prs_bucket_counts_closed (projects : List Project) (D0 D1 d : Nat)
    (h1 : D0 ≤ d) (h2 : d ≤ D1) :
    (calculateDailyCounts projects D0 D1).merged_prs.lookup d =
      some ((projects.flatMap (·.prs)).countP
        fun pr => pr.state == "closed" && pr.closed_at.map dayOf == some d) := by
  rw [dailyCounts_merged_lookup, if_pos ⟨h1, h2⟩, allMergedDays_eq_filterMap,
    List.count_filterMap]
  congr 1
  apply List.countP_congr
  intro pr _
  cases hs : pr.state == "closed" <;> simp [hs]

theorem merged_prs_bucket_counts_closed_witness :
    (calculateDailyCounts
        [⟨"o", "r", "n", none, [], [⟨"closed", 0, some (3 * msPerDay), none⟩],
          ⟨0, 0, 0, 0, 0, 0⟩, none, none⟩] 2 5).merged_prs.lookup 3 =
      some ((([⟨"o", "r", "n", none, [], [⟨"closed", 0, some (3 * msPerDay), none⟩],
          ⟨0, 0, 0, 0, 0, 0⟩, none, none⟩] : List Project).flatMap (·.prs)).countP
        (fun pr => pr.state == "closed" && pr.closed_at.map dayOf == some 3)) :=
  merged_prs_bucket_counts_closed _ 2 5 3 (by decide) (by decide)

/-! ## Leaderboard lemmas (claims C5, C6, C7) -/

theorem updateContributor_assignedCount (T : Nat) (p : Project) (i : Issue)
    (c : Contributor) :
    (updateContributor T p i c).assignedCount = c.assignedCount + 1 := by
  unfold updateContributor
  split
  · split
    · simp
    · split
      · split <;> simp
      · simp
  · simp

theorem updateContributor_username (T : Nat) (p : Project) (i : Issue)
    (c : Contributor) :
    (updateContributor T p i c).username = c.username := by
  unfold updateContributor
  split
  · split
    · simp
    · split
      · split <;> simp
      · simp
  · simp

theorem mapUpdate_keys (m : List (String × Contributor)) (k : String)
    (f : Contributor → Contributor) :
    (mapUpdate m k f).map Prod.fst = m.map Prod.fst := by
  rw [mapUpdate, List.map_map]
  apply List.map_congr_left
  intro q _
  by_cases h : q.1 = k <;> simp [h]

theorem mapUpdate_of_not_mem {m : List (String × Contributor)} {k : String}
    (f : Contributor → Contributor) (h : k ∉ m.map Prod.fst) :
    mapUpdate m k f = m := by
  induction m with
  | nil => rfl
  | cons q rest ih =>
    simp only [List.map_cons, List.mem_cons, not_or] at h
    have h1 : ¬(q.1 = k) := fun hh => h.1 hh.symm
    have h2 := ih h.2
    simp only [mapUpdate, List.map_cons] at h2 ⊢
    rw [if_neg h1, h2]

/-- Total assigned count stored in the contributors map. -/
def sumAssigned (m : List (String × Contributor)) : Nat :=
  (m.map (fun q => q.2.assignedCount)).sum

theorem sumAssigned_mapUpdate (T : Nat) (p : Project) (i : Issue)
    (m : List (String × Contributor)) (k : String)
    (hnd : (m.map Prod.fst).Nodup) (hk : k ∈ m.map Prod.fst) :
    sumAssigned (mapUpdate m k (updateContributor T p i)) = sumAssigned m + 1 := by
  induction m with
  | nil => simp at hk
  | cons q rest ih =>
    obtain ⟨a, c⟩ := q
    simp only [List.map_cons, List.nodup_cons] at hnd
    by_cases hka : k = a
    · subst hka
      have hrest : mapUpdate rest k (updateContributor T p i) = rest :=
        mapUpdate_of_not_mem _ hnd.1
      have hcons : mapUpdate ((k, c) :: rest) k (updateContributor T p i) =
          (k, updateContributor T p i c) :: mapUpdate rest k (updateContributor T p i) := by
        simp [mapUpdate]
      rw [hcons, hrest]
      simp [sumAssigned, updateContributor_assignedCount]
      omega
    · have hk' : k ∈ rest.map Prod.fst := by
        rcases List.mem_cons.mp hk with h | h
        · exact absurd h hka
        · exact h
      have hcons : mapUpdate ((a, c) :: rest) k (updateContributor T p i) =
          (a, c) :: mapUpdate rest k (updateContributor T p i) := by
        simp [mapUpdate, Ne.symm hka]
      rw [hcons]
      have hrec := ih hnd.2 hk'
      simp only [sumAssigned, List.map_cons, List.sum_cons] at hrec ⊢
      omega

theorem addIssue_keys (T : Nat) (p : Project) (m : List (String × Contributor))
    (i : Issue) :
    (addIssueToMap T p m i).map Prod.fst =
      m.map Prod.fst ++
        (match i.assignee with
          | some a => if (m.lookup a.login).isSome then [] else [a.login]
          | none => []) := by
  unfold addIssueToMap
  cases ha : i.assignee with
  | none => simp
  | some a =>
    by_cases hl : (m.lookup a.login).isSome
    · simp [hl, mapUpdate_keys]
    · simp [hl, mapUpdate_keys]

theorem addIssue_nodup (T : Nat) (p : Project) (m : List (String × Contributor))
    (i : Issue) (hnd : (m.map Prod.fst).Nodup) :
    ((addIssueToMap T p m i).map Prod.fst).Nodup := by
  rw [addIssue_keys]
  cases ha : i.assignee with
  | none => simpa using hnd
  | some a =>
    by_cases hl : (m.lookup a.login).isSome
    · simpa [hl] using hnd
    · have hnm : a.login ∉ m.map Prod.fst := by
        intro hmem
        obtain ⟨q, hq, hfst⟩ := List.mem_map.mp hmem
        have : (m.lookup a.login).isSome := by
          apply List.lookup_isSome_iff.mpr
          exact ⟨q, hq, by simp [hfst]⟩
        exact hl this
      simp only [hl, if_neg]
      simp [List.nodup_append, hnd, hnm]

theorem addIssue_sum (T : Nat) (p : Project) (m : List (String × Contributor))
    (i : Issue) (hnd : (m.map Prod.fst).Nodup) :
    sumAssigned (addIssueToMap T p m i) =
      sumAssigned m + (if i.assignee.isSome then 1 else 0) := by
  cases ha : i.assignee with
  | none => simp [addIssueToMap, ha]
  | some a =>
    by_cases hl : (m.lookup a.login).isSome
    · have hmem : a.login ∈ m.map Prod.fst := by
        obtain ⟨q, hq, hbeq⟩ := List.lookup_isSome_iff.mp hl
        exact List.mem_map.mpr ⟨q, hq, (eq_of_beq hbeq).symm⟩
      simp only [addIssueToMap, ha]
      rw [if_pos hl, sumAssigned_mapUpdate T p i m a.login hnd hmem]
      simp
    · have hnm : a.login ∉ m.map Prod.fst := by
        intro hmem
        obtain ⟨q, hq, hfst⟩ := List.mem_map.mp hmem
        exact hl (List.lookup_isSome_iff.mpr ⟨q, hq, by simp [hfst]⟩)
      have hnd2 : ((m ++ [(a.login, freshContributor a)]).map Prod.fst).Nodup := by
        simpa [List.nodup_append, hnd] using hnm
      have hmem2 : a.login ∈ (m ++ [(a.login, freshContributor a)]).map Prod.fst := by
        simp
      have hfresh : sumAssigned (m ++ [(a.login, freshContributor a)]) = sumAssigned m := by
        simp [sumAssigned, freshContributor]
      simp only [addIssueToMap, ha]
      rw [if_neg hl, sumAssigned_mapUpdate T p i _ a.login hnd2 hmem2, hfresh]
      simp

theorem foldIssues_nodup_sum (T : Nat) (p : Project) (issues : List Issue)
    (m : List (String × Contributor)) (hnd : (m.map Prod.fst).Nodup) :
    (((issues.foldl (addIssueToMap T p) m).map Prod.fst).Nodup) ∧
    sumAssigned (issues.foldl (addIssueToMap T p) m) =
      sumAssigned m + issues.countP (fun i => i.assignee.isSome) := by
  induction issues generalizing m with
  | nil => simpa using hnd
  | cons i is ih =>
    rw [List.foldl_cons]
    obtain ⟨ihnd, ihsum⟩ := ih (addIssueToMap T p m i) (addIssue_nodup T p m i hnd)
    refine ⟨ihnd, ?_⟩
    rw [ihsum, addIssue_sum T p m i hnd, List.countP_cons]
    by_cases hi : i.assignee.isSome
    · simp [hi]
      omega
    · simp [hi]

theorem foldProjects_nodup_sum (T : Nat) (projects : List Project)
    (m : List (String × Contributor)) (hnd : (m.map Prod.fst).Nodup) :
    (((projects.foldl (fun m p => p.issues.foldl (addIssueToMap T p) m) m).map
        Prod.fst).Nodup) ∧
    sumAssigned (projects.foldl (fun m p => p.issues.foldl (addIssueToMap T p) m) m) =
      sumAssigned m +
        (projects.flatMap (·.issues)).countP (fun i => i.assignee.isSome) := by
  induction projects generalizing m with
  | nil => simpa using hnd
  | cons p ps ih =>
    rw [List.foldl_cons]
    obtain ⟨hnd1, hsum1⟩ := foldIssues_nodup_sum T p p.issues m hnd
    obtain ⟨ihnd, ihsum⟩ := ih (p.issues.foldl (addIssueToMap T p) m) hnd1
    refine ⟨ihnd, ?_⟩
    rw [ihsum, hsum1, List.flatMap_cons, List.countP_append]
    omega

/-- The contributors map has no duplicate usernames (a JavaScript `Map`
holds each key once). -/
theorem contributorsMap_nodup (projects : List Project) (T : Nat) :
    ((contributorsMap projects T).map Prod.fst).Nodup :=
  (foldProjects_nodup_sum T projects [] (by simp)).1

/-- The leaderboard array is a permutation of the bucket list in
encounter order, whatever the sort key (the three sorting branches are
permutations, the default branch is the identity). -/
theorem leaderboard_perm (projects : List Project) (T : Nat) (sortBy : String) :
    (buildContributorLeaderboard projects T sortBy).Perm
      (contributorEntries projects T) := by
  unfold buildContributorLeaderboard
  by_cases h1 : sortBy == "points"
  · rw [if_pos h1]; exact List.mergeSort_perm _ _
  · rw [if_neg h1]
    by_cases h2 : sortBy == "closed"
    · rw [if_pos h2]; exact List.mergeSort_perm _ _
    · rw [if_neg h2]
      by_cases h3 : sortBy == "assigned"
      · rw [if_pos h3]; exact List.mergeSort_perm _ _
      · rw [if_neg h3]

/-- C5: the `assignedCount` fields of the leaderboard sum to the number
of issues (across all projects) that carry an assignee: every assigned
issue lands in exactly one contributor bucket. -/
theorem leaderboard_assignedCount_sum (projects : List Project) (T : Nat)
    (sortBy : String) :
    ((buildContributorLeaderboard projects T sortBy).map
        (fun c => c.assignedCount)).sum =
      (projects.flatMap (·.issues)).countP (fun i => i.assignee.isSome) := by
  have hperm := (leaderboard_perm projects T sortBy).map (fun c => c.assignedCount)
  rw [hperm.sum_eq]
  have : ((contributorEntries projects T).map (fun c => c.assignedCount)).sum =
      sumAssigned (contributorsMap projects T) := by
    rw [contributorEntries, List.map_map]
    rfl
  rw [this, contributorsMap]
  have := (foldProjects_nodup_sum T projects [] (by simp)).2
  rw [this]
  simp [sumAssigned]

theorem addIssue_username_count (T : Nat) (p : Project) (i : Issue)
    (m : List (String × Contributor))
    (hP : ∀ q ∈ m, q.2.username = q.1)
    (hQ : ∀ q ∈ m, 1 ≤ q.2.assignedCount) :
    (∀ q ∈ addIssueToMap T p m i, q.2.username = q.1) ∧
    (∀ q ∈ addIssueToMap T p m i, 1 ≤ q.2.assignedCount) := by
  cases ha : i.assignee with
  | none =>
    constructor <;> intro q hq <;> simp only [addIssueToMap, ha] at hq
    · exact hP q hq
    · exact hQ q hq
  | some a =>
    have hm1 : ∀ q' ∈ (if (m.lookup a.login).isSome then m
        else m ++ [(a.login, freshContributor a)]),
        q' ∈ m ∨ q' = (a.login, freshContributor a) := by
      intro q' hq'
      split at hq'
      · exact Or.inl hq'
      · rcases List.mem_append.mp hq' with h | h
        · exact Or.inl h
        · exact Or.inr (by simpa using h)
    constructor
    · intro q hq
      simp only [addIssueToMap, ha, mapUpdate] at hq
      obtain ⟨q', hq', rfl⟩ := List.mem_map.mp hq
      by_cases hqk : q'.1 = a.login
      · rw [if_pos hqk]
        simp only [updateContributor_username]
        rcases hm1 q' hq' with h | h
        · exact hP q' h
        · rw [h]; simp [freshContributor]
      · rw [if_neg hqk]
        rcases hm1 q' hq' with h | h
        · exact hP q' h
        · exact absurd (by simp [h]) hqk
    · intro q hq
      simp only [addIssueToMap, ha, mapUpdate] at hq
      obtain ⟨q', hq', rfl⟩ := List.mem_map.mp hq
      by_cases hqk : q'.1 = a.login
      · rw [if_pos hqk]
        simp [updateContributor_assignedCount]
      · rw [if_neg hqk]
        rcases hm1 q' hq' with h | h
        · exact hQ q' h
        · exact absurd (by simp [h]) hqk

theorem foldIssues_username_count (T : Nat) (p : Project) (issues : List Issue)
    (m : List (String × Contributor))
    (hP : ∀ q ∈ m, q.2.username = q.1)
    (hQ : ∀ q ∈ m, 1 ≤ q.2.assignedCount) :
    (∀ q ∈ issues.foldl (addIssueToMap T p) m, q.2.username = q.1) ∧
    (∀ q ∈ issues.foldl (addIssueToMap T p) m, 1 ≤ q.2.assignedCount) := by
  induction issues generalizing m with
  | nil => exact ⟨hP, hQ⟩
  | cons i is ih =>
    rw [List.foldl_cons]
    obtain ⟨hP1, hQ1⟩ := addIssue_username_count T p i m hP hQ
    exact ih _ hP1 hQ1

theorem contributorsMap_username_count (projects : List Project) (T : Nat) :
    (∀ q ∈ contributorsMap projects T, q.2.username = q.1) ∧
    (∀ q ∈ contributorsMap projects T, 1 ≤ q.2.assignedCount) := by
  rw [contributorsMap]
  generalize hm : ([] : List (String × Contributor)) = m
  have hP : ∀ q ∈ m, q.2.username = q.1 := by rw [← hm]; simp
  have hQ : ∀ q ∈ m, 1 ≤ q.2.assignedCount := by rw [← hm]; simp
  clear hm
  induction projects generalizing m with
  | nil => exact ⟨hP, hQ⟩
  | cons p ps ih =>
    rw [List.foldl_cons]
    obtain ⟨hP1, hQ1⟩ := foldIssues_username_count T p p.issues m hP hQ
    exact ih _ hP1 hQ1

theorem addIssue_mem_keys (T : Nat) (p : Project) (m : List (String × Contributor))
    (i : Issue) (u : String) :
    u ∈ (addIssueToMap T p m i).map Prod.fst ↔
      (u ∈ m.map Prod.fst ∨ ∃ a, i.assignee = some a ∧ a.login = u) := by
  cases ha : i.assignee with
  | none => simp [addIssueToMap, ha]
  | some a =>
    simp only [addIssueToMap, ha]
    by_cases hl : (m.lookup a.login).isSome
    · have hmem : a.login ∈ m.map Prod.fst := by
        obtain ⟨q, hq, hbeq⟩ := List.lookup_isSome_iff.mp hl
        exact List.mem_map.mpr ⟨q, hq, (eq_of_beq hbeq).symm⟩
      rw [if_pos hl, mapUpdate_keys]
      constructor
      · exact fun h => Or.inl h
      · rintro (h | ⟨a', ha', rfl⟩)
        · exact h
        · obtain rfl : a' = a := (Option.some.inj ha').symm
          exact hmem
    · rw [if_neg hl, mapUpdate_keys]
      simp [eq_comm]

theorem foldIssues_mem_keys (T : Nat) (p : Project) (issues : List Issue)
    (m : List (String × Contributor)) (u : String) :
    u ∈ ((issues.foldl (addIssueToMap T p) m).map Prod.fst) ↔
      (u ∈ m.map Prod.fst ∨
        ∃ i ∈ issues, ∃ a, i.assignee = some a ∧ a.login = u) := by
  induction issues generalizing m with
  | nil => simp
  | cons i is ih =>
    rw [List.foldl_cons, ih, addIssue_mem_keys, List.exists_mem_cons_iff, or_assoc]

theorem foldProjects_mem_keys (T : Nat) (projects : List Project)
    (m : List (String × Contributor)) (u : String) :
    u ∈ ((projects.foldl (fun m p => p.issues.foldl (addIssueToMap T p) m) m).map
        Prod.fst) ↔
      (u ∈ m.map Prod.fst ∨
        ∃ p ∈ projects, ∃ i ∈ p.issues, ∃ a, i.assignee = some a ∧ a.login = u) := by
  induction projects generalizing m with
  | nil => simp
  | cons p ps ih =>
    rw [List.foldl_cons, ih, foldIssues_mem_keys, List.exists_mem_cons_iff, or_assoc]

/-- C6: a contributor entry appears in the leaderboard exactly when some
issue of some project is assigned to that username, and every entry has
`assignedCount ≥ 1`. -/
theorem leaderboard_entries_iff_assigned (projects : List Project) (T : Nat)
    (sortBy : String) :
    (∀ u : String,
        (∃ c ∈ buildContributorLeaderboard projects T sortBy, c.username = u) ↔
        (∃ p ∈ projects, ∃ i ∈ p.issues, ∃ a, i.assignee = some a ∧ a.login = u)) ∧
    (∀ c ∈ buildContributorLeaderboard projects T sortBy, 1 ≤ c.assignedCount) := by
  have hperm := leaderboard_perm projects T sortBy
  have hPu := contributorsMap_username_count projects T
  constructor
  · intro u
    constructor
    · rintro ⟨c, hc, rfl⟩
      have hc' : c ∈ contributorEntries projects T := hperm.mem_iff.mp hc
      obtain ⟨q, hq, rfl⟩ := List.mem_map.mp hc'
      rw [hPu.1 q hq]
      have hkey : q.1 ∈ (contributorsMap projects T).map Prod.fst :=
        List.mem_map_of_mem _ hq
      rw [contributorsMap] at hkey
      rcases (foldProjects_mem_keys T projects [] q.1).mp hkey with h | h
      · simp at h
      · exact h
    · intro h
      have hkey : u ∈ ((contributorsMap projects T).map Prod.fst) := by
        rw [contributorsMap]
        exact (foldProjects_mem_keys T projects [] u).mpr (Or.inr h)
      obtain ⟨q, hq, rfl⟩ := List.mem_map.mp hkey
      exact ⟨q.2, hperm.mem_iff.mpr (List.mem_map_of_mem Prod.snd hq), hPu.1 q hq⟩
  · intro c hc
    have hc' : c ∈ contributorEntries projects T := hperm.mem_iff.mp hc
    obtain ⟨q, hq, rfl⟩ := List.mem_map.mp hc'
    exact hPu.2 q hq

theorem leaderboard_entries_iff_assigned_witness :
    ∃ c ∈ buildContributorLeaderboard
        [⟨"o", "r", "n", none,
          [⟨1, "open", some 5, none, some ⟨"alice", "", ""⟩, none, 0, false, 0, false⟩],
          [], ⟨0, 0, 0, 0, 0, 0⟩, none, none⟩] 3 "points",
      c.username = "alice" :=
  ((leaderboard_entries_iff_assigned _ 3 "points").1 "alice").mpr
    ⟨_, List.mem_cons_self _ _, _, List.mem_cons_self _ _, ⟨"alice", "", ""⟩, rfl, rfl⟩

theorem mergeSort_desc_stable (l : List Contributor) (f : Contributor → Int) :
    (l.mergeSort (fun a b => decide (f b ≤ f a))).Pairwise (fun a b => f b ≤ f a) ∧
    ∀ v : Int,
      (l.mergeSort (fun a b => decide (f b ≤ f a))).filter (fun c => f c == v) =
        l.filter (fun c => f c == v) := by
  have htrans : ∀ a b c : Contributor,
      decide (f b ≤ f a) = true → decide (f c ≤ f b) = true →
        decide (f c ≤ f a) = true := by
    intro a b c h1 h2
    simp only [decide_eq_true_eq] at *
    omega
  have htotal : ∀ a b : Contributor,
      (decide (f b ≤ f a) || decide (f a ≤ f b)) = true := by
    intro a b
    simp only [Bool.or_eq_true, decide_eq_true_eq]
    omega
  constructor
  · exact (List.sorted_mergeSort htrans htotal l).imp (by simp)
  · intro v
    have hall : ∀ x ∈ l.filter (fun c => f c == v), f x = v := fun x hx => by
      simpa using (List.mem_filter.mp hx).2
    have hfil : (l.filter (fun c => f c == v)).Pairwise
        (fun a b => decide (f b ≤ f a) = true) :=
      List.pairwise_of_forall_mem_list fun a ha b hb => by
        simp [hall a ha, hall b hb]
    have hsub : List.Sublist (l.filter (fun c => f c == v))
        (l.mergeSort (fun a b => decide (f b ≤ f a))) :=
      List.sublist_mergeSort htrans htotal hfil (List.filter_sublist l)
    have hself : (l.filter (fun c => f c == v)).filter (fun c => f c == v) =
        l.filter (fun c => f c == v) :=
      List.filter_eq_self.mpr fun a ha => (List.mem_filter.mp ha).2
    have hsub2 : List.Sublist (l.filter (fun c => f c == v))
        ((l.mergeSort (fun a b => decide (f b ≤ f a))).filter (fun c => f c == v)) := by
      have := hsub.filter (fun c => f c == v)
      rwa [hself] at this
    have hperm :
        ((l.mergeSort (fun a b => decide (f b ≤ f a))).filter
            (fun c => f c == v)).Perm (l.filter (fun c => f c == v)) :=
      (List.mergeSort_perm l _).filter _
    exact (hsub2.eq_of_length hperm.length_eq.symm).symm

/-- C7: for each of the three selectable keys the leaderboard is the
stable descending sort of the encounter-order bucket list: it is a
permutation of it, it is pairwise non-increasing in the selected key,
and entries with equal key values appear exactly in encounter order
(no secondary key). -/
theorem leaderboard_sorted_stable (projects : List Project) (T : Nat) (key : String)
    (h : key = "points" ∨ key = "closed" ∨ key = "assigned") :
    (buildContributorLeaderboard projects T key).Perm
        (contributorEntries projects T) ∧
    (buildContributorLeaderboard projects T key).Pairwise
        (fun a b => contribKey key b ≤ contribKey key a) ∧
    ∀ v : Int,
      (buildContributorLeaderboard projects T key).filter
          (fun c => contribKey key c == v) =
        (contributorEntries projects T).filter
          (fun c => contribKey key c == v) := by
  rcases h with rfl | rfl | rfl
  · have hkey : ∀ c : Contributor, contribKey "points" c = c.totalPoints := by
      intro c
      unfold contribKey
      rw [if_pos (by decide)]
    have hlb : buildContributorLeaderboard projects T "points" =
        (contributorEntries projects T).mergeSort
          (fun a b => decide (b.totalPoints ≤ a.totalPoints)) := by
      unfold buildContributorLeaderboard
      rw [if_pos (by decide)]
    refine ⟨?_, ?_, ?_⟩
    · rw [hlb]; exact List.mergeSort_perm _ _
    · rw [hlb]
      simp only [hkey]
      exact (mergeSort_desc_stable (contributorEntries projects T)
        (fun c => c.totalPoints)).1
    · intro v
      rw [hlb]
      simp only [hkey]
      exact (mergeSort_desc_stable (contributorEntries projects T)
        (fun c => c.totalPoints)).2 v
  · have hkey : ∀ c : Contributor, contribKey "closed" c = (c.closedCount : Int) := by
      intro c
      unfold contribKey
      rw [if_neg (by decide), if_pos (by decide)]
    have hle : (fun a b : Contributor => decide (b.closedCount ≤ a.closedCount)) =
        (fun a b : Contributor =>
          decide ((b.closedCount : Int) ≤ (a.closedCount : Int))) := by
      funext a b
      rw [decide_eq_decide]
      exact Nat.cast_le.symm
    have hlb : buildContributorLeaderboard projects T "closed" =
        (contributorEntries projects T).mergeSort
          (fun a b => decide ((b.closedCount : Int) ≤ (a.closedCount : Int))) := by
      unfold buildContributorLeaderboard
      rw [if_neg (by decide), if_pos (by decide), hle]
    refine ⟨?_, ?_, ?_⟩
    · rw [hlb]; exact List.mergeSort_perm _ _
    · rw [hlb]
      simp only [hkey]
      exact (mergeSort_desc_stable (contributorEntries projects T)
        (fun c => (c.closedCount : Int))).1
    · intro v
      rw [hlb]
      simp only [hkey]
      exact (mergeSort_desc_stable (contributorEntries projects T)
        (fun c => (c.closedCount : Int))).2 v
  · have hkey : ∀ c : Contributor,
        contribKey "assigned" c = (c.assignedCount : Int) := by
      intro c
      unfold contribKey
      rw [if_neg (by decide), if_neg (by decide)]
    have hle : (fun a b : Contributor => decide (b.assignedCount ≤ a.assignedCount)) =
        (fun a b : Contributor =>
          decide ((b.assignedCount : Int) ≤ (a.assignedCount : Int))) := by
      funext a b
      rw [decide_eq_decide]
      exact Nat.cast_le.symm
    have hlb : buildContributorLeaderboard projects T "assigned" =
        (contributorEntries projects T).mergeSort
          (fun a b => decide ((b.assignedCount : Int) ≤ (a.assignedCount : Int))) := by
      unfold buildContributorLeaderboard
      rw [if_neg (by decide), if_neg (by decide), if_pos (by decide), hle]
    refine ⟨?_, ?_, ?_⟩
    · rw [hlb]; exact List.mergeSort_perm _ _
    · rw [hlb]
      simp only [hkey]
      exact (mergeSort_desc_stable (contributorEntries projects T)
        (fun c => (c.assignedCount : Int))).1
    · intro v
      rw [hlb]
      simp only [hkey]
      exact (mergeSort_desc_stable (contributorEntries projects T)
        (fun c => (c.assignedCount : Int))).2 v

theorem leaderboard_sorted_stable_witness :
    (buildContributorLeaderboard
          [⟨"o", "r", "n", none,
            [⟨1, "open", some 5, none, some ⟨"alice", "", ""⟩, none, 0, false, 0, false⟩],
            [], ⟨0, 0, 0, 0, 0, 0⟩, none, none⟩] 3 "points").Perm
        (contributorEntries
          [⟨"o", "r", "n", none,
            [⟨1, "open", some 5, none, some ⟨"alice", "", ""⟩, none, 0, false, 0, false⟩],
            [], ⟨0, 0, 0, 0, 0, 0⟩, none, none⟩] 3) ∧
    (buildContributorLeaderboard
          [⟨"o", "r", "n", none,
            [⟨1, "open", some 5, none, some ⟨"alice", "", ""⟩, none, 0, false, 0, false⟩],
            [], ⟨0, 0, 0, 0, 0, 0⟩, none, none⟩] 3 "points").Pairwise
        (fun a b => contribKey "points" b ≤ contribKey "points" a) :=
  ⟨(leaderboard_sorted_stable _ 3 "points" (Or.inl rfl)).1,
   (leaderboard_sorted_stable _ 3 "points" (Or.inl rfl)).2.1⟩

end RamadanTracker
